import Mathlib

/-!
Verification of the MaxScale DCB (Descriptor Control Block) subsystem,
a shallow embedding of `server/core/dcb.c`.

The embedding models, faithfully to the C source:
* the DCB state machine `dcb_set_state_nomutex` (including the fact that the
  local `succp` flag is declared without an initializer and is never assigned
  on the `default:` branches, modelled as `Option Bool` with `none` standing
  for "returned while unassigned");
* the zombie list: `dcb_add_to_zombieslist`, `dcb_process_zombies` and
  `dcb_final_free` (registry unlink);
* `dcb_close`;
* the write path `dcb_write` (buffer chains as lists of buffer lengths, the
  kernel's `write` results as an oracle trace);
* the read path `dcb_read` (`ioctl FIONREAD` results, allocation results and
  `read` results as oracle traces).

Single-threaded executions are modelled; every spinlock-protected critical
section of the C code executes atomically, so each C function becomes a pure
state transformer.
-/

namespace MaxScaleDcb

/-- The `dcb_state_t` enumeration from `dcb.h` as used by `dcb.c`. -/
inductive DcbState where
  | UNDEFINED
  | ALLOC
  | POLLING
  | LISTENING
  | NOPOLLING
  | ZOMBIE
  | DISCONNECTED
  | FREED
deriving DecidableEq, Repr, Fintype

/-- Result of one call to `dcb_set_state_nomutex`:
`succp` is the value of the local `bool succp`, which the C code declares
WITHOUT an initializer; `none` means the function returned while `succp`
was never assigned (reading it is undefined behaviour in C).
`state` is `dcb->state` after the call; `old` is the value stored through
the `old_state` out-parameter (always the previous state). -/
structure TransResult where
  succp : Option Bool
  state : DcbState
  old   : DcbState
deriving DecidableEq

open DcbState in
/-- Shallow embedding of `dcb_set_state_nomutex` (dcb.c lines 988-1112).
Each arm mirrors one `case` of the C switch; the fall-through from
`DCB_STATE_ZOMBIE:` to `DCB_STATE_POLLING:` inside the `NOPOLLING` and
`ZOMBIE` cases (state updated, then `succp = true`) gives the idempotent
no-op transitions.  All `default:` branches leave `succp` unassigned. -/
def dcb_set_state_nomutex (s ns : DcbState) : TransResult :=
  match s with
  | UNDEFINED => ⟨some true, ns, s⟩
  | ALLOC =>
    match ns with
    | POLLING | LISTENING | DISCONNECTED => ⟨some true, ns, s⟩
    | _ => ⟨none, s, s⟩
  | POLLING =>
    match ns with
    | NOPOLLING | LISTENING => ⟨some true, ns, s⟩
    | _ => ⟨none, s, s⟩
  | LISTENING =>
    match ns with
    | POLLING => ⟨some true, ns, s⟩
    | _ => ⟨none, s, s⟩
  | NOPOLLING =>
    match ns with
    | ZOMBIE => ⟨some true, ns, s⟩
    | POLLING => ⟨some true, s, s⟩
    | _ => ⟨none, s, s⟩
  | ZOMBIE =>
    match ns with
    | DISCONNECTED => ⟨some true, ns, s⟩
    | POLLING => ⟨some true, s, s⟩
    | _ => ⟨none, s, s⟩
  | DISCONNECTED =>
    match ns with
    | FREED => ⟨some true, ns, s⟩
    | _ => ⟨none, s, s⟩
  | FREED => ⟨none, s, s⟩

open DcbState in
/-- Modelled from the spec: the legal-transition table of spec section 4.1
(`UNDEFINED` may go anywhere; the two idempotent no-op pairs
`NOPOLLING -> POLLING` and `ZOMBIE -> POLLING` are legal). -/
def legalTransition (s ns : DcbState) : Bool :=
  match s, ns with
  | UNDEFINED, _ => true
  | ALLOC, POLLING | ALLOC, LISTENING | ALLOC, DISCONNECTED => true
  | POLLING, NOPOLLING | POLLING, LISTENING => true
  | LISTENING, POLLING => true
  | NOPOLLING, ZOMBIE | NOPOLLING, POLLING => true
  | ZOMBIE, DISCONNECTED | ZOMBIE, POLLING => true
  | DISCONNECTED, FREED => true
  | _, _ => false

open DcbState in
/-- Modelled from the spec: the two transition pairs that succeed without
changing the state (spec section 4.1, "idempotent no-op"). -/
def noopTransition (s ns : DcbState) : Bool :=
  match s, ns with
  | NOPOLLING, POLLING | ZOMBIE, POLLING => true
  | _, _ => false

/-- A Descriptor Control Block, with the fields the verified operations
touch.  `id` stands for the C object's address (pointer identity);
`mask` is `memdata.bitmask` (the set of worker-thread ids whose bit is set);
`fdClosed` records whether `close(fd)` has been called on the descriptor. -/
structure Dcb where
  id       : ℕ
  fd       : ℤ
  state    : DcbState
  mask     : Finset ℕ
  fdClosed : Bool
deriving DecidableEq

/-- `bitmask_clear(&mask, tid)`: clear bit `tid` (bitmask utility, out of
scope of dcb.c, modelled as a finite set of set bits). -/
def bitmask_clear (m : Finset ℕ) (tid : ℕ) : Finset ℕ := m.erase tid

/-- `bitmask_isallclear(&mask)`: no bit is set. -/
def bitmask_isallclear (m : Finset ℕ) : Bool := decide (m = ∅)

/-- `{ d with mask := bitmask_clear d.mask tid }`, the per-entry update the
zombie walk applies to every DCB on the list. -/
def clearTid (tid : ℕ) (d : Dcb) : Dcb := { d with mask := bitmask_clear d.mask tid }

/-- The walk of `dcb_process_zombies` over the zombie list (dcb.c lines
338-387): clear bit `tid` in every entry; entries whose mask becomes
all-clear are unlinked and appended, in list order, to the thread-local
victim list (`dcb_list`); the rest stay on the zombie list in order.
Returns `(remaining zombie list, victim list)`. -/
def zombieWalk (tid : ℕ) : List Dcb → List Dcb × List Dcb
  | [] => ([], [])
  | d :: rest =>
    let d2 := clearTid tid d
    let (rem, vic) := zombieWalk tid rest
    if bitmask_isallclear d2.mask then (rem, d2 :: vic) else (d2 :: rem, vic)

/-- The registry-unlink step of `dcb_final_free` (dcb.c lines 226-248):
remove the first (by pointer identity, i.e. `id`) occurrence of the DCB
from the singly-linked `allDCBs` chain; if it is not on the chain the
chain is unchanged. -/
def registryUnlink : List ℕ → ℕ → List ℕ
  | [], _ => []
  | x :: xs, i => if x = i then xs else x :: registryUnlink xs i

/-- The clean-up applied to each victim in the second phase of
`dcb_process_zombies` (dcb.c lines 392-402): `close(dcb->fd)`, then
`dcb_set_state(dcb, DCB_STATE_DISCONNECTED, NULL)`. -/
def freeVictim (v : Dcb) : Dcb :=
  { v with
    fdClosed := true
    state := (dcb_set_state_nomutex v.state DcbState.DISCONNECTED).state }

/-- Global state touched by the zombie reaper: the zombie list (`zombies`),
the registry (`allDCBs`, by DCB identity), and the accumulated list of DCBs
on which `dcb_final_free` has run (recording the DCB's contents at free
time). -/
structure ReapState where
  zombies  : List Dcb
  registry : List ℕ
  freed    : List Dcb
deriving DecidableEq

/-- Shallow embedding of `dcb_process_zombies(threadid)` (dcb.c lines
317-403).  The dirty-read fast path returns at once on an empty list.
Otherwise, under the zombie spinlock, the walk clears bit `tid`
everywhere and moves the all-clear entries to the victim list; then,
outside the lock, each victim in order has its fd closed, is transitioned
ZOMBIE -> DISCONNECTED and is finally freed (unlinked from the registry). -/
def dcb_process_zombies (tid : ℕ) (s : ReapState) : ReapState :=
  if s.zombies = [] then s
  else
    let wv := zombieWalk tid s.zombies
    let vic2 := wv.2.map freeVictim
    { zombies  := wv.1
      registry := vic2.foldl (fun r v => registryUnlink r v.id) s.registry
      freed    := s.freed ++ vic2 }

/-- One `dcb_process_zombies` call per entry of `ts`, in order: the trace of
worker threads reaching their reap point. -/
def processAll (ts : List ℕ) (s : ReapState) : ReapState :=
  ts.foldl (fun st t => dcb_process_zombies t st) s

/-- The tail-append walk of `dcb_add_to_zombieslist` (dcb.c lines 168-196):
starting from a non-empty list the C code walks `memdata.next` while it is
non-null, breaking out early (and not appending) if it meets `dcb` itself;
after the loop it appends only if the final node is not `dcb`.  On the
empty list the head pointer is set to `dcb`. -/
def zombieAppend (d : Dcb) : List Dcb → List Dcb
  | [] => [d]
  | [x] => if x.id = d.id then [x] else [x, d]
  | x :: y :: xs => if x.id = d.id then x :: y :: xs else x :: zombieAppend d (y :: xs)

/-- Shallow embedding of `dcb_add_to_zombieslist(dcb)` (dcb.c lines
149-205).  Under the zombie spinlock: if the DCB is already in state
ZOMBIE, return with the list unchanged; otherwise append it (unless it is
already on the list) and set its state to ZOMBIE via
`dcb_set_state` — since the list node is the DCB itself, the state written
inside the critical section is the one the list ends up holding.
Returns `(new zombie list, the DCB after the call)`. -/
def dcb_add_to_zombieslist (d : Dcb) (zs : List Dcb) : List Dcb × Dcb :=
  if d.state = DcbState.ZOMBIE then (zs, d)
  else
    let d2 := { d with state := (dcb_set_state_nomutex d.state DcbState.ZOMBIE).state }
    (zombieAppend d2 zs, d2)

/-- State touched by `dcb_close`: the DCB, the zombie list, and a counter of
`poll_remove_dcb` invocations (to state how often the fd left the poll
set). -/
structure CloseState where
  d            : Dcb
  zombies      : List Dcb
  pollRemovals : ℕ
deriving DecidableEq

/-- Shallow embedding of `dcb_close(dcb)` (dcb.c lines 737-777).  Under the
DCB init-lock it calls `dcb_set_state_nomutex(dcb, DCB_STATE_NOPOLLING)`;
the C code then branches on the returned `succp`.  When
`dcb_set_state_nomutex` returned without ever assigning `succp` the branch
reads an unassigned local, so the call's behaviour is unspecified: `none`.
Otherwise, if the transition happened, the DCB is removed from the poll set
and the live-worker bitmask `live` (the value of `poll_bitmask()`) is
copied into `memdata.bitmask`; finally, outside the lock, if the state is
NOPOLLING the DCB is added to the zombie list. -/
def dcb_close (live : Finset ℕ) (s : CloseState) : Option CloseState :=
  let r := dcb_set_state_nomutex s.d.state DcbState.NOPOLLING
  match r.succp with
  | none => none
  | some succp =>
    let d1 := { s.d with state := r.state }
    let d2 := if succp then { d1 with mask := live } else d1
    let removals := if succp then s.pollRemovals + 1 else s.pollRemovals
    if d2.state = DcbState.NOPOLLING then
      let za := dcb_add_to_zombieslist d2 s.zombies
      some ⟨za.2, za.1, removals⟩
    else
      some ⟨d2, s.zombies, removals⟩

/-! ## Write path -/

/-- Result of one `write(2)` call as seen by `dcb_write`/`dcb_drain_writeq`:
either `w >= 0` bytes were written, or the call failed with `errno = e`. -/
inductive WRes where
  | ok (w : ℕ)
  | err (e : ℕ)
deriving DecidableEq

/-- `EAGAIN` on Linux (the platform of this epoll-based code). -/
def EAGAIN : ℕ := 11

/-- `EWOULDBLOCK`; on Linux it has the same value as `EAGAIN`. -/
def EWOULDBLOCK : ℕ := 11

/-- `gwbuf_consume(queue, w)` for `w` no larger than the head buffer
(the only way dcb.c calls it): drop `w` bytes from the head buffer,
freeing it when it becomes empty.  Buffer chains are lists of buffer
lengths. -/
def gwbuf_consume (q : List ℕ) (w : ℕ) : List ℕ :=
  match q with
  | [] => []
  | l :: rest => if w < l then (l - w) :: rest else rest

/-- The direct-send loop of `dcb_write` (dcb.c lines 612-648), driven by the
oracle trace `tr` of `write(2)` results.  Loops while the chain is
non-empty: a failed write breaks out with its errno saved; a successful
write consumes the written bytes and continues (a short write does NOT
break — the loop retries at once).  `saved_errno` is 0 after a successful
write because the code resets `errno = 0` each iteration and a successful
`write` does not set it.  Returns `(remaining chain, saved_errno)`; `none`
when the oracle trace is exhausted with the chain still non-empty (a
behaviour of the model, not of the code). -/
def sendLoop : List WRes → List ℕ → ℕ → Option (List ℕ × ℕ)
  | _, [], e => some ([], e)
  | [], _ :: _, _ => none
  | .err e :: _, l :: q, _ => some (l :: q, e)
  | .ok w :: tr, l :: q, _ => sendLoop tr (gwbuf_consume (l :: q) w) 0

/-- The single exit condition of `dcb_write` (dcb.c lines 658-664):
`if (queue && (saved_errno != EAGAIN || saved_errno != EWOULDBLOCK)) return 0;
return 1;` applied to the final value of the local `queue` and to
`saved_errno`. -/
def dcb_write_ret (queue : List ℕ) (saved_errno : ℕ) : ℕ :=
  if ¬ queue.isEmpty ∧ (saved_errno ≠ EAGAIN ∨ saved_errno ≠ EWOULDBLOCK) then 0 else 1

/-- Shallow embedding of `dcb_write(dcb, queue)` (dcb.c lines 576-665).
If the write queue is non-empty the chain is appended to it and no write
is attempted (the local `queue` keeps pointing at the non-null chain and
`saved_errno` keeps its initial value 0); otherwise the direct-send loop
runs and the remainder becomes the new write queue.  Returns
`(new write queue, return value)`. -/
def dcb_write (tr : List WRes) (writeq queue : List ℕ) : Option (List ℕ × ℕ) :=
  if ¬ writeq.isEmpty then
    some (writeq ++ queue, dcb_write_ret queue 0)
  else
    match sendLoop tr queue 0 with
    | none => none
    | some (rem, e) => some (rem, dcb_write_ret rem e)

/-! ## Read path -/

/-- Result of one `read(2)` call as seen by `dcb_read`: `ok n` for a return
of `n >= 0` bytes (0 meaning the peer closed), `err e` for a return of -1
with `errno = e`. -/
inductive RRes where
  | ok (n : ℕ)
  | err (e : ℕ)
deriving DecidableEq

/-- The value of the C expression `n ? n : -1`. -/
def lastOr (ms : List ℕ) (n : ℤ) : ℤ := ms.foldl (fun _ m => (m : ℤ)) n

/-- Shallow embedding of the loop of `dcb_read(dcb, head)` (dcb.c lines
486-568), driven by three oracle traces: `io` gives the successive
`ioctl(fd, FIONREAD, &b)` outcomes (`none` = the ioctl failed, `some b` =
`b` bytes immediately readable), `al` the `gwbuf_alloc` outcomes and `rd`
the `read(2)` outcomes.  `chain` is the out-chain built so far (a list of
allocated buffer sizes) and `n` is the local variable `n`, the byte count
of the most recent `read` (initially 0).  Mirrors the source exactly:
* ioctl failure returns -1;
* `b = 0` leaves the loop and returns `n` — the LAST read's count, not a
  running total;
* allocation failure returns `n ? n : -1`;
* a failed read returns `n` (= -1), on EAGAIN/EWOULDBLOCK as much as on any
  other errno (both branches of the C `if` return `n`);
* a read of 0 returns 0 (peer closed);
* a read of `m > 0` appends the freshly allocated buffer of size
  `min b MAX_BUFFER_SIZE` to the chain and re-queries the ioctl.
`maxbuf` is `MAX_BUFFER_SIZE`.  `none` only when an oracle trace is
exhausted (model incompleteness, not code behaviour). -/
def dcb_read_loop (maxbuf : ℕ) :
    List (Option ℕ) → List Bool → List RRes → List ℕ → ℤ → Option (List ℕ × ℤ)
  | [], _, _, _, _ => none
  | none :: _, _, _, chain, _ => some (chain, -1)
  | some b :: io, al, rd, chain, n =>
    if b = 0 then some (chain, n)
    else
      match al with
      | [] => none
      | a :: al2 =>
        if ¬ a then some (chain, if n = 0 then -1 else n)
        else
          match rd with
          | [] => none
          | .err _ :: _ => some (chain, -1)
          | .ok 0 :: _ => some (chain, 0)
          | .ok (m + 1) :: rd2 =>
            dcb_read_loop maxbuf io al2 rd2 (chain ++ [min b maxbuf]) ((m : ℤ) + 1)

/-- Shallow embedding of `dcb_read(dcb, head)` with `*head` initially the
empty chain. -/
def dcb_read (maxbuf : ℕ) (io : List (Option ℕ)) (al : List Bool) (rd : List RRes) :
    Option (List ℕ × ℤ) :=
  dcb_read_loop maxbuf io al rd [] 0

/-! ## Connect -/

/-- Outcome of `dcb_connect`: what the caller receives, whether
`dcb_final_free` ran on the freshly allocated DCB, and the DCB's state when
the function returned (for failure paths, its state at free time). -/
structure ConnOut where
  result     : Option Dcb
  freedRan   : Bool
  stateAtEnd : DcbState
deriving DecidableEq

/-- Shallow embedding of `dcb_connect(server, session, protocol)` (dcb.c
lines 417-474).  Oracles: `allocOk` = `dcb_alloc` succeeded, `moduleOk` =
`load_module(protocol, MODULE_PROTOCOL)` resolved, `linkOk` =
`session_link_dcb` succeeded, `fdRes` = the fd returned by
`dcb->func.connect` (-1 = failure).  On module or link failure the fresh
DCB (still in state ALLOC) is finally freed and null is returned; on
connect failure it is transitioned ALLOC -> DISCONNECTED, finally freed,
and null is returned. -/
def dcb_connect (allocOk moduleOk linkOk : Bool) (fdRes : ℤ) : ConnOut :=
  if ¬ allocOk then ⟨none, false, DcbState.UNDEFINED⟩
  else if ¬ moduleOk then ⟨none, true, DcbState.ALLOC⟩
  else if ¬ linkOk then ⟨none, true, DcbState.ALLOC⟩
  else if fdRes = -1 then
    ⟨none, true, (dcb_set_state_nomutex DcbState.ALLOC DcbState.DISCONNECTED).state⟩
  else
    ⟨some ⟨0, fdRes, DcbState.ALLOC, ∅, false⟩, false, DcbState.ALLOC⟩

/-! ## Sample inputs used by closed witnesses and counterexamples -/

/-- A DCB in state POLLING, as handed to `dcb_add_to_zombieslist` outside the
close path. -/
def samplePollingDcb : Dcb := ⟨0, 3, DcbState.POLLING, ∅, false⟩

/-- A DCB already in state ZOMBIE. -/
def sampleZombieDcb : Dcb := ⟨2, 5, DcbState.ZOMBIE, {0}, false⟩

/-- A DCB in state NOPOLLING, the state from which `dcb_close` appends to the
zombie list. -/
def sampleNopollingDcb : Dcb := ⟨1, 4, DcbState.NOPOLLING, {0}, false⟩

/-- A DCB in state POLLING about to be closed for the first time. -/
def closeSampleDcb : Dcb := ⟨7, 9, DcbState.POLLING, ∅, false⟩

/-- A reaper state with two zombies (masks `{0}` and `{0, 1}`), a registry
holding both of them plus one live DCB, and nothing freed yet. -/
def reapSampleState : ReapState :=
  ⟨[⟨10, 7, DcbState.ZOMBIE, {0}, false⟩, ⟨11, 8, DcbState.ZOMBIE, {0, 1}, false⟩],
   [10, 11, 12], []⟩

/-! ## Theorems -/

/-- C10: for every transition request that is not in the legal table
(for example ALLOC -> ZOMBIE, or any request when the state is FREED),
`dcb_set_state_nomutex` reaches a branch on which the local `succp` is never
assigned before being returned, so the reported value comes from an
uninitialized variable; the total embedding models this as the unspecified
result `none`. -/
theorem dcb_set_state_nomutex_unassigned_on_illegal :
    ∀ s ns : DcbState, legalTransition s ns = false →
      (dcb_set_state_nomutex s ns).succp = none := by decide

theorem dcb_set_state_nomutex_unassigned_on_illegal_witness :
    legalTransition DcbState.ALLOC DcbState.ZOMBIE = false ∧
      (dcb_set_state_nomutex DcbState.ALLOC DcbState.ZOMBIE).succp = none :=
  ⟨by decide,
   dcb_set_state_nomutex_unassigned_on_illegal DcbState.ALLOC DcbState.ZOMBIE (by decide)⟩

/-- C2: `dcb_set_state_nomutex` always reports the previous state through
`old_state`; for every pair in the section 4.1 table it succeeds and sets
the state to the target (except the idempotent no-ops NOPOLLING -> POLLING
and ZOMBIE -> POLLING, which succeed without changing the state); for every
pair not in the table it leaves the state unchanged but — contrary to the
claim — does NOT return failure: it returns the never-assigned `succp`
(modelled `none`), so the failure result is not guaranteed.  This is the
code bug behind claim C2. -/
theorem dcb_set_state_nomutex_characterization :
    ∀ s ns : DcbState,
      (dcb_set_state_nomutex s ns).old = s ∧
      (legalTransition s ns = true →
        (dcb_set_state_nomutex s ns).succp = some true ∧
        (dcb_set_state_nomutex s ns).state =
          (if noopTransition s ns then s else ns)) ∧
      (legalTransition s ns = false →
        (dcb_set_state_nomutex s ns).state = s ∧
        (dcb_set_state_nomutex s ns).succp = none) := by decide

theorem dcb_set_state_nomutex_characterization_witness :
    (dcb_set_state_nomutex DcbState.POLLING DcbState.NOPOLLING).succp = some true ∧
      (dcb_set_state_nomutex DcbState.POLLING DcbState.NOPOLLING).state =
        DcbState.NOPOLLING := by
  have h :=
    (dcb_set_state_nomutex_characterization DcbState.POLLING DcbState.NOPOLLING).2.1
      (by decide)
  exact ⟨h.1, h.2.trans (by decide)⟩

/-- C9: `dcb_connect` returns null and runs `dcb_final_free` on the fresh DCB
whenever the protocol module cannot be resolved or the DCB cannot be linked
to the session; when the protocol connect yields no descriptor it
transitions the DCB to DISCONNECTED, runs final free and returns null; in
every failure case the caller receives null. -/
theorem dcb_connect_failure_paths (m l : Bool) (fd : ℤ) :
    (m = false →
      (dcb_connect true m l fd).result = none ∧
        (dcb_connect true m l fd).freedRan = true) ∧
    (l = false →
      (dcb_connect true m l fd).result = none ∧
        (dcb_connect true m l fd).freedRan = true) ∧
    (fd = -1 →
      (dcb_connect true m l fd).result = none ∧
        (dcb_connect true m l fd).freedRan = true ∧
        (m = true → l = true →
          (dcb_connect true m l fd).stateAtEnd = DcbState.DISCONNECTED)) := by
  cases m <;> cases l <;>
    by_cases h : fd = -1 <;>
      simp [dcb_connect, h, dcb_set_state_nomutex]

theorem dcb_connect_failure_paths_witness :
    (dcb_connect true false true 5).result = none ∧
      (dcb_connect true true true (-1)).stateAtEnd = DcbState.DISCONNECTED :=
  ⟨((dcb_connect_failure_paths false true 5).1 rfl).1,
   (((dcb_connect_failure_paths true true (-1)).2.2 rfl).2.2 rfl rfl)⟩

/-- C3: on the direct-send path (empty write queue), `dcb_write` stores the
remaining chain as the new write queue and returns failure (0) exactly when
that remainder is non-empty and the saved errno is not
EAGAIN/EWOULDBLOCK; on EAGAIN/EWOULDBLOCK, or when everything was sent,
it returns success (1).  (On Linux EAGAIN and EWOULDBLOCK share the
value 11, under which the code's `!= .. || != ..` condition coincides with
the claim's "other than EAGAIN/EWOULDBLOCK".) -/
theorem dcb_write_direct_path (tr : List WRes) (queue rem : List ℕ) (e : ℕ)
    (h : sendLoop tr queue 0 = some (rem, e)) :
    dcb_write tr [] queue = some (rem, dcb_write_ret rem e) ∧
    (dcb_write_ret rem e = 0 ↔ rem ≠ [] ∧ ¬(e = EAGAIN ∨ e = EWOULDBLOCK)) ∧
    ((e = EAGAIN ∨ e = EWOULDBLOCK) → dcb_write_ret rem e = 1) ∧
    (rem = [] → dcb_write_ret rem e = 1) := by
  refine ⟨by simp [dcb_write, h], ?_, ?_, ?_⟩ <;>
    · unfold dcb_write_ret EAGAIN EWOULDBLOCK
      by_cases hr : rem = [] <;> by_cases he : e = 11 <;>
        simp [hr, he, List.isEmpty_iff]

theorem dcb_write_direct_path_witness :
    dcb_write [WRes.ok 2, WRes.err 11] [] [5] = some ([3], dcb_write_ret [3] 11) ∧
      dcb_write_ret [3] 11 = 1 := by
  have h := dcb_write_direct_path [WRes.ok 2, WRes.err 11] [5] [3] 11 (by decide)
  exact ⟨h.1, h.2.2.1 (Or.inl rfl)⟩

/-- C4: when the write queue is already non-empty, `dcb_write` appends the
chain to it and performs no write — but, contrary to the claim, it returns
failure (0), not success (1): the final condition
`queue && (saved_errno != EAGAIN || saved_errno != EWOULDBLOCK)` is true
on this path because the local `queue` still points at the (non-null)
appended chain and `saved_errno` is still 0. -/
theorem dcb_write_append_path_returns_zero (tr : List WRes) (wq q : List ℕ)
    (hw : wq ≠ []) (hq : q ≠ []) :
    dcb_write tr wq q = some (wq ++ q, 0) := by
  unfold dcb_write dcb_write_ret EAGAIN EWOULDBLOCK
  simp [List.isEmpty_iff, hw, hq]

theorem dcb_write_append_path_returns_zero_witness :
    dcb_write [] [4] [7] = some ([4, 7], 0) :=
  dcb_write_append_path_returns_zero [] [4] [7] (by decide) (by decide)

/-- Helper: the successful drain of `dcb_read`.  With successive availability
counts `bs` (all positive, final query 0), all allocations succeeding and
reads returning the positive counts `ms`, the loop appends one buffer of
size `min b MAX_BUFFER_SIZE` per availability count and finally returns the
last read's count (`n` if no read happened). -/
theorem dcb_read_loop_drain (maxbuf : ℕ) :
    ∀ (bs ms chain : List ℕ) (n : ℤ), bs.length = ms.length →
      (∀ x ∈ bs, 0 < x) → (∀ x ∈ ms, 0 < x) →
      dcb_read_loop maxbuf (bs.map some ++ [some 0]) (List.replicate bs.length true)
          (ms.map RRes.ok) chain n
        = some (chain ++ bs.map (fun b => min b maxbuf), lastOr ms n) := by
  intro bs
  induction bs with
  | nil =>
    intro ms chain n hlen _ _
    have hms : ms = [] := List.eq_nil_of_length_eq_zero hlen.symm
    subst hms
    simp [dcb_read_loop, lastOr]
  | cons b bs ih =>
    intro ms chain n hlen hb hm
    match ms with
    | [] => exact absurd hlen (by simp)
    | m :: ms =>
      have hb0 : b ≠ 0 := Nat.pos_iff_ne_zero.mp (hb b (by simp))
      have hm0 : 0 < m := hm m (by simp)
      match m, hm0 with
      | m + 1, _ =>
        have hrec := ih ms (chain ++ [min b maxbuf]) ((m : ℤ) + 1)
          (by simpa using hlen) (fun x hx => hb x (by simp [hx]))
          (fun x hx => hm x (by simp [hx]))
        simp only [List.map_cons, List.cons_append, List.length_cons,
          List.replicate_succ, dcb_read_loop, hb0, if_false]
        rw [if_neg (not_not_intro trivial)]
        simp only [List.append_eq]
        rw [hrec]
        have hl : lastOr ((m + 1) :: ms) n = lastOr ms ((m : ℤ) + 1) := by
          simp [lastOr]
        rw [hl]
        simp [List.append_assoc]

/-- C6: on a descriptor with positive immediately-readable counts, `dcb_read`
repeatedly allocates a buffer of size `min(available, MAX_BUFFER_SIZE)`,
reads once into it, appends it to the out-chain and re-queries the count,
until the count is no longer positive; the buffers appended therefore have
sizes `min(available_i, MAX_BUFFER_SIZE)` in read order. -/
theorem dcb_read_buffer_sizes (maxbuf : ℕ) (bs ms : List ℕ)
    (hlen : bs.length = ms.length) (hb : ∀ x ∈ bs, 0 < x) (hm : ∀ x ∈ ms, 0 < x) :
    dcb_read maxbuf (bs.map some ++ [some 0]) (List.replicate bs.length true)
        (ms.map RRes.ok)
      = some (bs.map (fun b => min b maxbuf), lastOr ms 0) := by
  simpa [dcb_read] using dcb_read_loop_drain maxbuf bs ms [] 0 hlen hb hm

theorem dcb_read_buffer_sizes_witness :
    dcb_read 4096 [some 10240, some 6144, some 2048, some 0] [true, true, true]
        [RRes.ok 4096, RRes.ok 4096, RRes.ok 2048]
      = some ([4096, 4096, 2048], 2048) := by
  have h := dcb_read_buffer_sizes 4096 [10240, 6144, 2048] [4096, 4096, 2048]
    (by decide) (by decide) (by decide)
  simpa [lastOr] using h

/-- C5 counterexample: with 10 KB available in one shot and
MAX_BUFFER_SIZE = 4 KB, `dcb_read` appends buffers of sizes
4096, 4096, 2048 (10240 bytes in total) but returns 2048 — the byte count
of the LAST `read`, not the total number of bytes appended, refuting the
claim (which requires 10240 here). -/
theorem dcb_read_returns_last_read_not_total :
    dcb_read 4096 [some 10240, some 6144, some 2048, some 0] [true, true, true]
        [RRes.ok 4096, RRes.ok 4096, RRes.ok 2048]
      = some ([4096, 4096, 2048], 2048) ∧ (4096 + 4096 + 2048 : ℤ) ≠ 2048 := by
  constructor
  · decide
  · decide

/-- C5 (amended): `dcb_read` returns 0 when the availability query reports
no data (in particular when the peer has closed and nothing is pending) and
when a read returns end-of-file; it returns -1 when the availability query
fails and when a read fails with ANY errno — EAGAIN/EWOULDBLOCK included,
since both branches of the error check return `n` = -1; otherwise it
returns the byte count of the last read performed, not the total appended. -/
theorem dcb_read_return_value (maxbuf : ℕ) :
    (∀ io al rd, dcb_read maxbuf (some 0 :: io) al rd = some ([], 0)) ∧
    (∀ io al rd, dcb_read maxbuf (none :: io) al rd = some ([], -1)) ∧
    (∀ b io al rd e,
      dcb_read maxbuf (some (b + 1) :: io) (true :: al) (RRes.err e :: rd)
        = some ([], -1)) ∧
    (∀ b io al rd,
      dcb_read maxbuf (some (b + 1) :: io) (true :: al) (RRes.ok 0 :: rd)
        = some ([], 0)) ∧
    (∀ bs ms : List ℕ, bs.length = ms.length →
      (∀ x ∈ bs, 0 < x) → (∀ x ∈ ms, 0 < x) →
      dcb_read maxbuf (bs.map some ++ [some 0]) (List.replicate bs.length true)
          (ms.map RRes.ok)
        = some (bs.map (fun b => min b maxbuf), lastOr ms 0)) := by
  refine ⟨?_, ?_, ?_, ?_, ?_⟩
  · intro io al rd; simp [dcb_read, dcb_read_loop]
  · intro io al rd; simp [dcb_read, dcb_read_loop]
  · intro b io al rd e; simp [dcb_read, dcb_read_loop]
  · intro b io al rd; simp [dcb_read, dcb_read_loop]
  · intro bs ms hlen hb hm
    simpa [dcb_read] using dcb_read_loop_drain maxbuf bs ms [] 0 hlen hb hm

theorem dcb_read_return_value_witness :
    dcb_read 4096 [some 0] [] [] = some ([], 0) ∧
      dcb_read 4096 ([8].map some ++ [some 0]) [true] [RRes.ok 8]
        = some ([min 8 4096], lastOr [8] 0) :=
  ⟨(dcb_read_return_value 4096).1 [] [] [],
   by
    have h := (dcb_read_return_value 4096).2.2.2.2 [8] [8] (by decide) (by decide)
      (by decide)
    simpa using h⟩

/-- Helper: the tail-append walk appends the DCB exactly when no node of the
list is the DCB itself; in every other case (early break included) the list
is unchanged. -/
theorem zombieAppend_eq (d : Dcb) :
    ∀ zs : List Dcb,
      zombieAppend d zs = if d.id ∈ zs.map Dcb.id then zs else zs ++ [d]
  | [] => by simp [zombieAppend]
  | [x] => by
    by_cases h : x.id = d.id
    · simp [zombieAppend, h]
    · have hx : ¬ d.id = x.id := fun hc => h hc.symm
      simp [zombieAppend, h, hx]
  | x :: y :: xs => by
    by_cases h : x.id = d.id
    · simp [zombieAppend, h]
    · have ih := zombieAppend_eq d (y :: xs)
      simp only [zombieAppend, if_neg h, ih]
      have hx : ¬ d.id = x.id := fun hc => h hc.symm
      have hiff : (d.id ∈ (x :: y :: xs).map Dcb.id) ↔
          (d.id ∈ (y :: xs).map Dcb.id) := by
        simp [hx]
      by_cases hmem : d.id ∈ (y :: xs).map Dcb.id
      · rw [if_pos hmem, if_pos (hiff.mpr hmem)]
      · rw [if_neg hmem, if_neg (fun hc => hmem (hiff.mp hc))]
        simp

/-- Helper: `dcb_add_to_zombieslist` keeps the DCB's identity. -/
theorem dcb_add_to_zombieslist_id (d : Dcb) (zs : List Dcb) :
    (dcb_add_to_zombieslist d zs).2.id = d.id := by
  unfold dcb_add_to_zombieslist
  by_cases h : d.state = DcbState.ZOMBIE <;> simp [h]

/-- C8 counterexample: a DCB in state POLLING (not ZOMBIE) with a fresh
identity is appended to the zombie list — a successful append — yet its
state after the call is NOT ZOMBIE, because `dcb_set_state` fails for
POLLING -> ZOMBIE and leaves the state unchanged.  This refutes the claim
that every successful append sets the DCB's state to ZOMBIE. -/
theorem dcb_add_to_zombieslist_polling_counterexample :
    (dcb_add_to_zombieslist samplePollingDcb []).1 = [samplePollingDcb] ∧
      (dcb_add_to_zombieslist samplePollingDcb []).2.state ≠ DcbState.ZOMBIE := by
  constructor
  · decide
  · decide

/-- C8 (amended): a DCB already in state ZOMBIE is returned with the zombie
list unchanged; the append preserves "each DCB appears at most once on the
list"; every successful append runs the transition to ZOMBIE inside the
same zombie-list critical section, so the appended node carries
`dcb_set_state_nomutex`'s result — which is ZOMBIE exactly when the prior
state admits the transition, in particular NOPOLLING, the only state from
which `dcb_close` appends. -/
theorem dcb_add_to_zombieslist_spec (d : Dcb) (zs : List Dcb) (i : ℕ) :
    (d.state = DcbState.ZOMBIE → dcb_add_to_zombieslist d zs = (zs, d)) ∧
    ((zs.map Dcb.id).count i ≤ 1 →
      ((dcb_add_to_zombieslist d zs).1.map Dcb.id).count i ≤ 1) ∧
    (d.state ≠ DcbState.ZOMBIE →
      (dcb_add_to_zombieslist d zs).2.state
          = (dcb_set_state_nomutex d.state DcbState.ZOMBIE).state ∧
      (dcb_add_to_zombieslist d zs).1
          = (if d.id ∈ zs.map Dcb.id then zs
             else zs ++ [(dcb_add_to_zombieslist d zs).2])) ∧
    (d.state = DcbState.NOPOLLING →
      (dcb_add_to_zombieslist d zs).2.state = DcbState.ZOMBIE) := by
  refine ⟨fun h => by simp [dcb_add_to_zombieslist, h], ?_, ?_, ?_⟩
  · intro hcount
    by_cases h : d.state = DcbState.ZOMBIE
    · simpa [dcb_add_to_zombieslist, h] using hcount
    · have hid := dcb_add_to_zombieslist_id d zs
      simp only [dcb_add_to_zombieslist, if_neg h, zombieAppend_eq]
      by_cases hmem : d.id ∈ zs.map Dcb.id
      · simpa [hmem] using hcount
      · rw [if_neg hmem]
        by_cases hi : i = d.id
        · have hz : (zs.map Dcb.id).count i = 0 := by
            rw [hi]; exact List.count_eq_zero.mpr hmem
          simp [List.count_append, hz, hid, hi]
          exact List.count_eq_zero.mpr hmem
        · have hdi : ¬ d.id = i := fun hc => hi hc.symm
          have h0 : List.count i [d.id] = 0 := by
            simp [List.count_cons, hdi]
          simp [List.count_append, hid, hdi, hcount]
          omega
  · intro h
    have hid := dcb_add_to_zombieslist_id d zs
    constructor
    · simp [dcb_add_to_zombieslist, h]
    · simp only [dcb_add_to_zombieslist, if_neg h, zombieAppend_eq]
  · intro h
    simp [dcb_add_to_zombieslist, h, dcb_set_state_nomutex]

theorem dcb_add_to_zombieslist_spec_witness :
    dcb_add_to_zombieslist sampleZombieDcb [] = ([], sampleZombieDcb) ∧
      (dcb_add_to_zombieslist sampleNopollingDcb []).2.state = DcbState.ZOMBIE :=
  ⟨(dcb_add_to_zombieslist_spec sampleZombieDcb [] 0).1 rfl,
   (dcb_add_to_zombieslist_spec sampleNopollingDcb [] 0).2.2.2 rfl⟩

/-- C7: the first `dcb_close` on a POLLING DCB performs the
POLLING -> NOPOLLING transition, removes the descriptor from the poll set
(one `poll_remove_dcb` invocation), snapshots the live-worker bitmask into
`thread_mask` and appends the DCB (now ZOMBIE) to the zombie list — but a
second `dcb_close` is NOT a guaranteed no-op: `dcb_set_state_nomutex`
leaves `succp` unassigned for ZOMBIE -> NOPOLLING, and `dcb_close` branches
on that indeterminate value, so the second call's behaviour is unspecified
(`none` in the embedding) rather than the no-op the claim demands. -/
theorem dcb_close_second_call_unspecified (live live2 : Finset ℕ) (d : Dcb) (n : ℕ)
    (h : d.state = DcbState.POLLING) :
    ∃ s1 : CloseState,
      dcb_close live ⟨d, [], n⟩ = some s1 ∧
      s1.d.state = DcbState.ZOMBIE ∧
      s1.d.mask = live ∧
      s1.pollRemovals = n + 1 ∧
      s1.zombies = [s1.d] ∧
      dcb_close live2 s1 = none := by
  refine ⟨⟨{ d with state := DcbState.ZOMBIE, mask := live },
           [{ d with state := DcbState.ZOMBIE, mask := live }], n + 1⟩,
         ?_, rfl, rfl, rfl, rfl, ?_⟩
  · simp [dcb_close, h, dcb_set_state_nomutex, dcb_add_to_zombieslist, zombieAppend]
  · simp [dcb_close, dcb_set_state_nomutex]

theorem dcb_close_second_call_unspecified_witness :
    ∃ s1 : CloseState,
      dcb_close {0, 1} ⟨closeSampleDcb, [], 0⟩ = some s1 ∧
      s1.d.state = DcbState.ZOMBIE ∧
      s1.d.mask = {0, 1} ∧
      s1.pollRemovals = 0 + 1 ∧
      s1.zombies = [s1.d] ∧
      dcb_close {0, 1} s1 = none :=
  dcb_close_second_call_unspecified {0, 1} {0, 1} closeSampleDcb 0 rfl

/-! ## Helper lemmas for the zombie reaper -/

/-- Helper: the zombie walk clears bit `tid` in every entry and splits the
list into survivors (mask still non-empty) and victims (mask all-clear),
both in list order. -/
theorem zombieWalk_eq (tid : ℕ) :
    ∀ zs : List Dcb,
      zombieWalk tid zs
        = ((zs.map (clearTid tid)).filter (fun d => !bitmask_isallclear d.mask),
           (zs.map (clearTid tid)).filter (fun d => bitmask_isallclear d.mask))
  | [] => by simp [zombieWalk]
  | d :: rest => by
    have ih := zombieWalk_eq tid rest
    simp only [zombieWalk, ih, List.map_cons, List.filter_cons]
    by_cases hc : bitmask_isallclear (clearTid tid d).mask <;> simp [hc]

/-- Helper: the zombie list after one `dcb_process_zombies` call. -/
theorem dcb_process_zombies_zombies (t : ℕ) (s : ReapState) :
    (dcb_process_zombies t s).zombies
      = (s.zombies.map (clearTid t)).filter (fun d => !bitmask_isallclear d.mask) := by
  unfold dcb_process_zombies
  by_cases h : s.zombies = []
  · simp [h]
  · simp [h, zombieWalk_eq]

/-- Helper: the freed list after one `dcb_process_zombies` call. -/
theorem dcb_process_zombies_freed (t : ℕ) (s : ReapState) :
    (dcb_process_zombies t s).freed
      = s.freed ++ ((s.zombies.map (clearTid t)).filter
          (fun d => bitmask_isallclear d.mask)).map freeVictim := by
  unfold dcb_process_zombies
  by_cases h : s.zombies = []
  · simp [h]
  · simp [h, zombieWalk_eq]

/-- Helper: the registry after one `dcb_process_zombies` call. -/
theorem dcb_process_zombies_registry (t : ℕ) (s : ReapState) :
    (dcb_process_zombies t s).registry
      = (((s.zombies.map (clearTid t)).filter
            (fun d => bitmask_isallclear d.mask)).map freeVictim).foldl
          (fun r v => registryUnlink r v.id) s.registry := by
  unfold dcb_process_zombies
  by_cases h : s.zombies = []
  · simp [h]
  · simp [h, zombieWalk_eq]

/-- Helper: unlinking from the registry yields a sublist. -/
theorem registryUnlink_sublist (i : ℕ) :
    ∀ r : List ℕ, (registryUnlink r i).Sublist r
  | [] => by simp [registryUnlink]
  | y :: r => by
    simp only [registryUnlink]
    by_cases h : y = i
    · rw [if_pos h]
      exact List.sublist_cons_self y r
    · rw [if_neg h]
      exact (registryUnlink_sublist i r).cons₂ y

/-- Helper: on a duplicate-free registry, unlinking `i` removes every
occurrence of `i`. -/
theorem registryUnlink_not_mem (i : ℕ) :
    ∀ r : List ℕ, r.Nodup → i ∉ registryUnlink r i
  | [] => by simp [registryUnlink]
  | y :: r => by
    intro hn
    simp only [registryUnlink]
    by_cases h : y = i
    · rw [if_pos h]
      subst h
      exact (List.nodup_cons.mp hn).1
    · rw [if_neg h]
      intro hx
      rcases List.mem_cons.mp hx with h1 | h1
      · exact h h1.symm
      · exact registryUnlink_not_mem i r (List.nodup_cons.mp hn).2 h1

/-- Helper: a fold of registry unlinks yields a sublist of the registry. -/
theorem unlinkFold_sublist :
    ∀ (vs : List Dcb) (r : List ℕ),
      (vs.foldl (fun r v => registryUnlink r v.id) r).Sublist r
  | [], r => List.Sublist.refl r
  | v :: vs, r => by
    simp only [List.foldl_cons]
    exact (unlinkFold_sublist vs (registryUnlink r v.id)).trans
      (registryUnlink_sublist v.id r)

/-- Helper: after folding the unlinks of `vs` over a duplicate-free registry,
no member of `vs` is still registered. -/
theorem unlinkFold_not_mem :
    ∀ (vs : List Dcb) (r : List ℕ) (v : Dcb),
      r.Nodup → v ∈ vs →
      v.id ∉ vs.foldl (fun r v => registryUnlink r v.id) r
  | [], _, _ => by simp
  | w :: vs, r, v => by
    intro hn hv
    simp only [List.foldl_cons]
    rcases List.mem_cons.mp hv with h1 | h1
    · subst h1
      intro hmem
      exact registryUnlink_not_mem v.id r hn
        ((unlinkFold_sublist vs (registryUnlink r v.id)).subset hmem)
    · exact unlinkFold_not_mem vs (registryUnlink r w.id) v
        (List.Nodup.sublist (registryUnlink_sublist w.id r) hn) h1

/-- Helper: one reap step only removes registry entries. -/
theorem dcb_process_zombies_registry_sublist (t : ℕ) (s : ReapState) :
    (dcb_process_zombies t s).registry.Sublist s.registry := by
  rw [dcb_process_zombies_registry]
  exact unlinkFold_sublist _ _

/-- Helper: one reap step only appends to the freed list. -/
theorem dcb_process_zombies_freed_mono (t : ℕ) (s : ReapState) (x : Dcb)
    (hx : x ∈ s.freed) : x ∈ (dcb_process_zombies t s).freed := by
  rw [dcb_process_zombies_freed]
  exact List.mem_append_left _ hx

/-- Helper: surviving zombies keep their ZOMBIE state. -/
theorem dcb_process_zombies_states (t : ℕ) (s : ReapState)
    (hz : ∀ d ∈ s.zombies, d.state = DcbState.ZOMBIE) :
    ∀ d ∈ (dcb_process_zombies t s).zombies, d.state = DcbState.ZOMBIE := by
  intro d hd
  rw [dcb_process_zombies_zombies] at hd
  obtain ⟨hmem, -⟩ := List.mem_filter.mp hd
  obtain ⟨d0, hd0, rfl⟩ := List.mem_map.mp hmem
  exact hz d0 hd0

/-- Helper: a full reap trace only removes registry entries. -/
theorem processAll_registry_sublist :
    ∀ (ts : List ℕ) (s : ReapState),
      (processAll ts s).registry.Sublist s.registry
  | [], _ => List.Sublist.refl _
  | t :: ts, s =>
    (processAll_registry_sublist ts (dcb_process_zombies t s)).trans
      (dcb_process_zombies_registry_sublist t s)

/-- Helper: a full reap trace only appends to the freed list. -/
theorem processAll_freed_mono :
    ∀ (ts : List ℕ) (s : ReapState) (x : Dcb),
      x ∈ s.freed → x ∈ (processAll ts s).freed
  | [], _, _ => fun h => h
  | t :: ts, s, x => fun h =>
    processAll_freed_mono ts (dcb_process_zombies t s) x
      (dcb_process_zombies_freed_mono t s x h)

/-- Helper: once every bit of every zombie's mask has been visited by the
trace, the zombie list is empty. -/
theorem processAll_zombies_nil :
    ∀ (ts : List ℕ) (t : ℕ) (s : ReapState),
      (∀ d ∈ s.zombies, ∀ b ∈ d.mask, b ∈ t :: ts) →
      (processAll (t :: ts) s).zombies = []
  | [], t, s => by
    intro hcov
    show (dcb_process_zombies t s).zombies = []
    rw [dcb_process_zombies_zombies]
    apply List.filter_eq_nil_iff.mpr
    intro d hd
    obtain ⟨d0, hd0, rfl⟩ := List.mem_map.mp hd
    have hempty : (clearTid t d0).mask = ∅ := by
      apply Finset.eq_empty_iff_forall_not_mem.mpr
      intro b hb
      have h1 := Finset.mem_erase.mp hb
      have h2 := hcov d0 hd0 b h1.2
      simp only [List.mem_singleton] at h2
      exact h1.1 h2
    simp [bitmask_isallclear, hempty]
  | t2 :: ts, t, s => by
    intro hcov
    show (processAll (t2 :: ts) (dcb_process_zombies t s)).zombies = []
    apply processAll_zombies_nil ts t2 (dcb_process_zombies t s)
    intro d hd b hb
    rw [dcb_process_zombies_zombies] at hd
    obtain ⟨hmem, -⟩ := List.mem_filter.mp hd
    obtain ⟨d0, hd0, rfl⟩ := List.mem_map.mp hmem
    have h1 := Finset.mem_erase.mp hb
    have h2 := hcov d0 hd0 b h1.2
    rcases List.mem_cons.mp h2 with h3 | h3
    · exact absurd h3 h1.1
    · exact h3

/-- Helper: a zombie whose mask becomes all-clear at step `t` is unlinked
from the registry and finally freed, closed and DISCONNECTED, by that very
step. -/
theorem victim_step (t : ℕ) (s : ReapState) (d : Dcb)
    (hreg : s.registry.Nodup)
    (hz : ∀ x ∈ s.zombies, x.state = DcbState.ZOMBIE)
    (hd : d ∈ s.zombies)
    (hclear : bitmask_isallclear (clearTid t d).mask = true) :
    d.id ∉ (dcb_process_zombies t s).registry ∧
    ∃ d2 ∈ (dcb_process_zombies t s).freed,
      d2.id = d.id ∧ d2.fdClosed = true ∧ d2.state = DcbState.DISCONNECTED := by
  have hvic : clearTid t d ∈ (s.zombies.map (clearTid t)).filter
      (fun x => bitmask_isallclear x.mask) :=
    List.mem_filter.mpr ⟨List.mem_map_of_mem _ hd, hclear⟩
  have hvic2 : freeVictim (clearTid t d) ∈ ((s.zombies.map (clearTid t)).filter
      (fun x => bitmask_isallclear x.mask)).map freeVictim :=
    List.mem_map_of_mem _ hvic
  constructor
  · rw [dcb_process_zombies_registry]
    exact unlinkFold_not_mem _ s.registry (freeVictim (clearTid t d)) hreg hvic2
  · refine ⟨freeVictim (clearTid t d), ?_, rfl, rfl, ?_⟩
    · rw [dcb_process_zombies_freed]
      exact List.mem_append_right _ hvic2
    · simp [freeVictim, clearTid, hz d hd, dcb_set_state_nomutex]

/-- Helper: every zombie all of whose mask bits are visited by the trace is
unlinked from the registry and finally freed, closed and DISCONNECTED. -/
theorem processAll_removed :
    ∀ (ts : List ℕ) (t : ℕ) (s : ReapState),
      s.registry.Nodup → (∀ x ∈ s.zombies, x.state = DcbState.ZOMBIE) →
      ∀ d ∈ s.zombies, (∀ b ∈ d.mask, b ∈ t :: ts) →
      d.id ∉ (processAll (t :: ts) s).registry ∧
      ∃ d2 ∈ (processAll (t :: ts) s).freed,
        d2.id = d.id ∧ d2.fdClosed = true ∧ d2.state = DcbState.DISCONNECTED := by
  intro ts
  induction ts with
  | nil =>
    intro t s hreg hz d hd hcov
    have hempty : (clearTid t d).mask = ∅ := by
      apply Finset.eq_empty_iff_forall_not_mem.mpr
      intro b hb
      have h1 := Finset.mem_erase.mp hb
      have h2 := hcov b h1.2
      simp only [List.mem_singleton] at h2
      exact h1.1 h2
    have hclear : bitmask_isallclear (clearTid t d).mask = true := by
      simp [bitmask_isallclear, hempty]
    exact victim_step t s d hreg hz hd hclear
  | cons t2 ts ih =>
    intro t s hreg hz d hd hcov
    by_cases hclear : bitmask_isallclear (clearTid t d).mask = true
    · have hv := victim_step t s d hreg hz hd hclear
      constructor
      · show d.id ∉ (processAll (t2 :: ts) (dcb_process_zombies t s)).registry
        intro hmem
        exact hv.1
          ((processAll_registry_sublist (t2 :: ts) (dcb_process_zombies t s)).subset hmem)
      · obtain ⟨d2, hd2, hprops⟩ := hv.2
        exact ⟨d2, processAll_freed_mono (t2 :: ts) _ _ hd2, hprops⟩
    · have hd2 : clearTid t d ∈ (dcb_process_zombies t s).zombies := by
        rw [dcb_process_zombies_zombies]
        refine List.mem_filter.mpr ⟨List.mem_map_of_mem _ hd, ?_⟩
        simp only [Bool.not_eq_true'] at hclear ⊢
        exact Bool.not_eq_true _ ▸ (by simpa using hclear)
      have hcov2 : ∀ b ∈ (clearTid t d).mask, b ∈ t2 :: ts := by
        intro b hb
        have h1 := Finset.mem_erase.mp hb
        have h2 := hcov b h1.2
        rcases List.mem_cons.mp h2 with h3 | h3
        · exact absurd h3 h1.1
        · exact h3
      exact ih t2 (dcb_process_zombies t s)
        (List.Nodup.sublist (dcb_process_zombies_registry_sublist t s) hreg)
        (dcb_process_zombies_states t s hz) (clearTid t d) hd2 hcov2

/-- C1: one `dcb_process_zombies tid` call clears bit `tid` in the mask of
every DCB on the zombie list, unlinks exactly those whose mask became
all-clear, and for each such victim closes its fd, transitions it
ZOMBIE -> DISCONNECTED and runs final free; consequently, once every worker
thread whose bit was set has called `dcb_process_zombies` at least once
(a non-empty call trace `ts` covering every mask bit), the zombie list is
empty and every formerly-zombie DCB has been finally freed and removed
from the registry. -/
theorem dcb_process_zombies_reaps (tid : ℕ) (ts : List ℕ) (s : ReapState)
    (hz : ∀ d ∈ s.zombies, d.state = DcbState.ZOMBIE)
    (hreg : s.registry.Nodup)
    (hcov : ∀ d ∈ s.zombies, ∀ b ∈ d.mask, b ∈ ts)
    (hne : ts ≠ []) :
    (dcb_process_zombies tid s).zombies
        = (s.zombies.map (clearTid tid)).filter (fun d => !bitmask_isallclear d.mask) ∧
    (dcb_process_zombies tid s).freed
        = s.freed ++ ((s.zombies.map (clearTid tid)).filter
            (fun d => bitmask_isallclear d.mask)).map freeVictim ∧
    (∀ v ∈ ((s.zombies.map (clearTid tid)).filter
        (fun d => bitmask_isallclear d.mask)).map freeVictim,
      v.fdClosed = true ∧ v.state = DcbState.DISCONNECTED) ∧
    (processAll ts s).zombies = [] ∧
    (∀ d ∈ s.zombies, d.id ∉ (processAll ts s).registry) ∧
    (∀ d ∈ s.zombies, ∃ d2 ∈ (processAll ts s).freed,
      d2.id = d.id ∧ d2.fdClosed = true ∧ d2.state = DcbState.DISCONNECTED) := by
  obtain ⟨t, ts2, rfl⟩ : ∃ t ts2, ts = t :: ts2 := by
    cases ts with
    | nil => exact absurd rfl hne
    | cons a l => exact ⟨a, l, rfl⟩
  refine ⟨dcb_process_zombies_zombies tid s, dcb_process_zombies_freed tid s, ?_,
    processAll_zombies_nil ts2 t s hcov,
    fun d hd => (processAll_removed ts2 t s hreg hz d hd (hcov d hd)).1,
    fun d hd => (processAll_removed ts2 t s hreg hz d hd (hcov d hd)).2⟩
  intro v hv
  obtain ⟨v0, hv0, rfl⟩ := List.mem_map.mp hv
  obtain ⟨hmem, hcl⟩ := List.mem_filter.mp hv0
  obtain ⟨d0, hd0, rfl⟩ := List.mem_map.mp hmem
  refine ⟨rfl, ?_⟩
  simp [freeVictim, clearTid, hz d0 hd0, dcb_set_state_nomutex]

theorem dcb_process_zombies_reaps_witness :
    (processAll [0, 1] reapSampleState).zombies = [] ∧
      10 ∉ (processAll [0, 1] reapSampleState).registry := by
  have h := dcb_process_zombies_reaps 0 [0, 1] reapSampleState (by decide) (by decide)
    (by decide) (by decide)
  refine ⟨h.2.2.2.1, ?_⟩
  exact h.2.2.2.2.1 ⟨10, 7, DcbState.ZOMBIE, {0}, false⟩ (by decide)

end MaxScaleDcb
